import Mathlib

/-!
Verification of the aggregation and duplicate-accounting engine of the
file-inventory dashboard (`src/streamlit_segy/gui/app.py`) and of the
SEG-Y batch analyzer (`src/streamlit_segy/utils/segy_analyzer.py`).

Sizes and chart values are modelled by `ℚ`; character-level string
operations model the Python string methods used by the source
(`str.lower`, `str.strip`, `str.title`, the regex `\.([^.]+)$`).
-/

namespace StreamlitDashboard

attribute [local semireducible] Rat.add Rat.mul Rat.sub Rat.inv

/-! ### Record normalizer (`app.py`, `normalize_extension` and the
regex extraction at line 291) -/

/-- The sentinel category returned when no extension can be derived. -/
def noExtChars : List Char := "no extension".data

/-- Python `str.strip()` on a character list: drop whitespace from both ends. -/
def trimChars (cs : List Char) : List Char :=
  ((cs.dropWhile Char.isWhitespace).reverse.dropWhile Char.isWhitespace).reverse

/-- The regex extraction `file_name.str.extract(r'\.([^.]+)$')`:
the (nonempty, dot-free) run of characters after the last `'.'`,
or `none` when the pattern does not match. -/
def lastDotExtract (cs : List Char) : Option (List Char) :=
  if '.' ∈ cs then
    let suf := (cs.reverse.takeWhile (· != '.')).reverse
    if suf = [] then none else some suf
  else none

/-- `normalize_extension` from `app.py` (lines 162-167): `none` models a
`NaN` produced by a failed regex match; otherwise lowercase, strip, and
fall back to the sentinel when the result is empty. -/
def normalize_extension : Option (List Char) → List Char
  | none => noExtChars
  | some cs =>
    if cs = [] then noExtChars
    else
      let e := trimChars (cs.map Char.toLower)
      if e = [] then noExtChars else e

/-- The extension the program derives for a file name: regex extraction of
the last-dot suffix followed by `normalize_extension` (line 291 of `app.py`). -/
def derive_extension (name : String) : String :=
  String.mk (normalize_extension (lastDotExtract name.data))

/-- The extension derivation as the specification words it: the lowercased,
whitespace-trimmed substring after the last `'.'` in the name; the sentinel
`"no extension"` when the name has no `'.'` or the extracted value is empty
(also after trimming) or absent. -/
def claimedExtChars (cs : List Char) : List Char :=
  if '.' ∈ cs then
    let suf := (cs.reverse.takeWhile (· != '.')).reverse
    let e := trimChars (suf.map Char.toLower)
    if suf = [] ∨ e = [] then noExtChars else e
  else noExtChars

/-- String-level version of `claimedExtChars`. -/
def claimedExtension (name : String) : String :=
  String.mk (claimedExtChars name.data)

/-- Python `str.title()` on a character list: a letter is uppercased when
the previous character is not a letter, lowercased otherwise. -/
def titleChars : Bool → List Char → List Char
  | _, [] => []
  | prevAlpha, c :: cs =>
      (if c.isAlpha then (if prevAlpha then c.toLower else c.toUpper) else c) ::
        titleChars c.isAlpha cs

/-- `df['file_type'].str.title()` applied to one label. -/
def strTitle (s : String) : String := String.mk (titleChars false s.data)

/-- The source's extraction-plus-normalization agrees with the claimed
characterization at the character-list level. -/
theorem normalize_eq_claimed (cs : List Char) :
    normalize_extension (lastDotExtract cs) = claimedExtChars cs := by
  unfold normalize_extension lastDotExtract claimedExtChars
  by_cases hdot : '.' ∈ cs
  · simp only [if_pos hdot]
    generalize (cs.reverse.takeWhile (· != '.')).reverse = s
    by_cases hs : s = []
    · simp [hs]
    · simp [hs]
  · simp [hdot]

/-- C4: for every file name, the derived extension is the lowercased,
whitespace-trimmed substring after the last `'.'`; the sentinel
`"no extension"` when the name has no `'.'` or the extracted value is
empty or absent; `"archive.tar.gz"` yields `"gz"`, `"README"` yields
`"no extension"`, and `".gitignore"` yields `"gitignore"`. -/
theorem c4_extension_derivation :
    (∀ name : String, derive_extension name = claimedExtension name) ∧
    derive_extension "archive.tar.gz" = "gz" ∧
    derive_extension "README" = "no extension" ∧
    derive_extension ".gitignore" = "gitignore" :=
  ⟨fun name => congrArg String.mk (normalize_eq_claimed name.data),
    by decide, by decide, by decide⟩

/-! ### Sorting

`DataFrame.sort_values` is modelled by a deterministic insertion sort
(descending by a projection).  The library's default quicksort guarantees
only the ordering, not the relative order of tied rows, so theorems about
arbitrary inputs use this model only through its permutation and
sortedness properties; on the short concrete examples in this file its
output coincides with the library's small-array insertion-sort path.
`groupby` sorts its keys ascending; that is modelled by an ascending
insertion sort on the distinct keys. -/

variable {α : Type*} {β : Type*} {κ : Type*}

/-- Insert `x` into a descending-sorted list, before the first element
whose projection does not exceed `f x`. -/
def insDescBy [LinearOrder β] (f : α → β) (x : α) : List α → List α
  | [] => [x]
  | y :: ys => if f y ≤ f x then x :: y :: ys else y :: insDescBy f x ys

/-- Deterministic descending sort by the projection `f`; see the section
comment for how much of it models the library's sort. -/
def sortDescBy [LinearOrder β] (f : α → β) (l : List α) : List α :=
  l.foldr (insDescBy f) []

theorem insDescBy_perm [LinearOrder β] (f : α → β) (x : α) (l : List α) :
    (insDescBy f x l).Perm (x :: l) := by
  induction l with
  | nil => exact .refl _
  | cons y ys ih =>
    unfold insDescBy
    split
    · exact .refl _
    · exact (ih.cons y).trans (List.Perm.swap x y ys)

theorem sortDescBy_perm [LinearOrder β] (f : α → β) (l : List α) :
    (sortDescBy f l).Perm l := by
  induction l with
  | nil => exact .refl _
  | cons x xs ih => exact (insDescBy_perm f x (sortDescBy f xs)).trans (ih.cons x)

/-- Insert a key into an ascending-sorted key list. -/
def insAscKey [LinearOrder κ] (x : κ) : List κ → List κ
  | [] => [x]
  | y :: ys => if x ≤ y then x :: y :: ys else y :: insAscKey x ys

/-- Ascending sort of grouping keys, as `groupby(..., sort=True)` produces. -/
def sortKeys [LinearOrder κ] (l : List κ) : List κ :=
  l.foldr insAscKey []

theorem insAscKey_perm [LinearOrder κ] (x : κ) (l : List κ) :
    (insAscKey x l).Perm (x :: l) := by
  induction l with
  | nil => exact .refl _
  | cons y ys ih =>
    unfold insAscKey
    split
    · exact .refl _
    · exact (ih.cons y).trans (List.Perm.swap x y ys)

theorem sortKeys_perm [LinearOrder κ] (l : List κ) : (sortKeys l).Perm l := by
  induction l with
  | nil => exact .refl _
  | cons x xs ih => exact (insAscKey_perm x (sortKeys xs)).trans (ih.cons x)

/-! ### Bucket collapser (`create_pie_chart`, `app.py` lines 169-218)

A row is a `(category, value)` pair; the value column is already selected. -/

/-- Total of the value column (`df[values].sum()`). -/
def totalV (rows : List (String × ℚ)) : ℚ := (rows.map (·.2)).sum

/-- The rows sorted descending by percentage-of-total
(`df.sort_values('percentage', ascending=False)`). -/
def pctSorted (rows : List (String × ℚ)) : List (String × ℚ) :=
  sortDescBy (fun b => b.2 / totalV rows * 100) rows

/-- Running cumulative sums (`cumsum`). -/
def cumSums : ℚ → List ℚ → List ℚ
  | _, [] => []
  | acc, v :: vs => (acc + v) :: cumSums (acc + v) vs

/-- `(cumulative_pct < 95).sum()`: the number of positions in the sorted
order whose cumulative percentage is strictly below 95. -/
def countCumLt95 (rows : List (String × ℚ)) : ℕ :=
  (cumSums 0 ((pctSorted rows).map (fun b => b.2 / totalV rows * 100))).countP
    (fun c => decide (c < 95))

/-- `main_idx = min(max(7, (cumulative_pct < 95).sum() + 1), len(df) - 1)`. -/
def cutoffIndex (rows : List (String × ℚ)) : ℕ :=
  min (max 7 (countCumLt95 rows + 1)) (rows.length - 1)

/-- The collapsing step of `create_pie_chart`: for more than 8 categories,
keep the sorted categories before `cutoffIndex` and merge the rest into a
single `"Other"` row; finally re-sort by raw value descending. -/
def collapseBuckets (rows : List (String × ℚ)) : List (String × ℚ) :=
  if 8 < rows.length then
    if (pctSorted rows).drop (cutoffIndex rows) = [] then
      sortDescBy (·.2) (pctSorted rows)
    else
      sortDescBy (·.2)
        ((pctSorted rows).take (cutoffIndex rows) ++
          [("Other", (((pctSorted rows).drop (cutoffIndex rows)).map (·.2)).sum)])
  else sortDescBy (·.2) rows

/-- The 9-category scenario of the specification. -/
def ex9 : List (String × ℚ) :=
  [("c1", 40), ("c2", 20), ("c3", 10), ("c4", 10), ("c5", 5),
   ("c6", 5), ("c7", 4), ("c8", 3), ("c9", 3)]

theorem cutoffIndex_lt_length (rows : List (String × ℚ)) (h : 8 < rows.length) :
    cutoffIndex rows < rows.length :=
  lt_of_le_of_lt (min_le_right _ _) (Nat.sub_lt (by omega) (by omega))

theorem drop_cutoff_ne_nil (rows : List (String × ℚ)) (h : 8 < rows.length) :
    (pctSorted rows).drop (cutoffIndex rows) ≠ [] := by
  have hlen : (pctSorted rows).length = rows.length :=
    (sortDescBy_perm _ rows).length_eq
  intro hnil
  have := List.drop_eq_nil_iff.mp hnil
  rw [hlen] at this
  exact absurd this (not_le.mpr (cutoffIndex_lt_length rows h))

/-- In the collapsing branch, the output is a permutation of the kept
prefix together with the merged `"Other"` row. -/
theorem collapseBuckets_perm (rows : List (String × ℚ)) (h : 8 < rows.length) :
    (collapseBuckets rows).Perm
      ((pctSorted rows).take (cutoffIndex rows) ++
        [("Other", totalV ((pctSorted rows).drop (cutoffIndex rows)))]) := by
  unfold collapseBuckets
  rw [if_pos h, if_neg (drop_cutoff_ne_nil rows h)]
  exact sortDescBy_perm _ _

/-- C1: for more than 8 categories (with a positive column total), the
collapser sorts descending by percentage-of-total, takes
`cutoff_index = min(max(7, (cumulative percentage < 95 count) + 1), N - 1)`,
keeps the sorted categories before that index and merges all others into a
single `"Other"` row carrying their summed value; in the 9-category
scenario `[40,20,10,10,5,5,4,3,3]` the first 8 are kept and `"Other"` has
value 3. -/
theorem c1_bucket_collapse :
    (∀ rows : List (String × ℚ), 8 < rows.length → 0 < totalV rows →
      cutoffIndex rows = min (max 7 (countCumLt95 rows + 1)) (rows.length - 1) ∧
      (collapseBuckets rows).Perm
        ((pctSorted rows).take (cutoffIndex rows) ++
          [("Other", totalV ((pctSorted rows).drop (cutoffIndex rows)))])) ∧
    cutoffIndex ex9 = 8 ∧
    collapseBuckets ex9 =
      [("c1", 40), ("c2", 20), ("c3", 10), ("c4", 10), ("c5", 5),
       ("c6", 5), ("c7", 4), ("c8", 3), ("Other", 3)] :=
  ⟨fun rows h _ => ⟨rfl, collapseBuckets_perm rows h⟩, by decide, by decide⟩

/-- Witness for C1 at the 9-category scenario. -/
theorem c1_bucket_collapse_witness :
    8 < ex9.length ∧ 0 < totalV ex9 ∧
    (collapseBuckets ex9).Perm
      ((pctSorted ex9).take (cutoffIndex ex9) ++
        [("Other", totalV ((pctSorted ex9).drop (cutoffIndex ex9)))]) :=
  ⟨by decide, by decide, (c1_bucket_collapse.1 ex9 (by decide) (by decide)).2⟩

theorem totalV_perm {l l' : List (String × ℚ)} (h : l.Perm l') :
    totalV l = totalV l' := by
  unfold totalV
  exact (h.map _).sum_eq

theorem totalV_append (a b : List (String × ℚ)) :
    totalV (a ++ b) = totalV a + totalV b := by
  simp [totalV]

theorem collapse_small_perm (rows : List (String × ℚ)) (h : ¬8 < rows.length) :
    (collapseBuckets rows).Perm rows := by
  unfold collapseBuckets
  rw [if_neg h]
  exact sortDescBy_perm _ _

theorem collapse_length (rows : List (String × ℚ)) (h : 8 < rows.length) :
    (collapseBuckets rows).length = cutoffIndex rows + 1 := by
  have hlen : (pctSorted rows).length = rows.length :=
    (sortDescBy_perm _ rows).length_eq
  have hcut := cutoffIndex_lt_length rows h
  rw [(collapseBuckets_perm rows h).length_eq, List.length_append,
    List.length_take, hlen]
  simp
  omega

/-- C2 counterexample: the specification's 9-category scenario itself
produces 9 output rows (8 kept plus `"Other"`), not at most 8. -/
theorem c2_counterexample :
    8 < ex9.length ∧ ¬((collapseBuckets ex9).length ≤ 8) := by decide

/-- C2 amended: when collapsing triggers (more than 8 categories), the
output has `cutoffIndex + 1` rows, which is at least 8 and at most the
input category count; the `"Other"` bucket always absorbs at least one
input category. -/
theorem c2_collapse_bounds (rows : List (String × ℚ)) (h : 8 < rows.length) :
    (collapseBuckets rows).length = cutoffIndex rows + 1 ∧
    8 ≤ (collapseBuckets rows).length ∧
    (collapseBuckets rows).length ≤ rows.length ∧
    1 ≤ ((pctSorted rows).drop (cutoffIndex rows)).length := by
  have hlen : (pctSorted rows).length = rows.length :=
    (sortDescBy_perm _ rows).length_eq
  have hcut := cutoffIndex_lt_length rows h
  have hc : 7 ≤ cutoffIndex rows := by
    unfold cutoffIndex at *
    omega
  refine ⟨collapse_length rows h, ?_, ?_, ?_⟩
  · rw [collapse_length rows h]; omega
  · rw [collapse_length rows h]; omega
  · rw [List.length_drop, hlen]; omega

/-- Witness for the amended C2 at the 9-category scenario. -/
theorem c2_collapse_bounds_witness :
    8 < ex9.length ∧
    ((collapseBuckets ex9).length = cutoffIndex ex9 + 1 ∧
      8 ≤ (collapseBuckets ex9).length ∧
      (collapseBuckets ex9).length ≤ ex9.length ∧
      1 ≤ ((pctSorted ex9).drop (cutoffIndex ex9)).length) :=
  ⟨by decide, c2_collapse_bounds ex9 (by decide)⟩

/-- C3: the collapser conserves the value total — the output values
(including the `"Other"` row) sum to the input values' sum — and no input
category is split: with more than 8 categories the output is, up to the
final re-sort, a kept prefix of whole categories plus one `"Other"` row
summing the dropped whole categories; with at most 8 categories the output
is a permutation of the input. -/
theorem c3_collapse_conservation :
    (∀ rows : List (String × ℚ), totalV (collapseBuckets rows) = totalV rows) ∧
    (∀ rows : List (String × ℚ), 8 < rows.length →
      (collapseBuckets rows).Perm
        ((pctSorted rows).take (cutoffIndex rows) ++
          [("Other", totalV ((pctSorted rows).drop (cutoffIndex rows)))])) ∧
    (∀ rows : List (String × ℚ), rows.length ≤ 8 →
      (collapseBuckets rows).Perm rows) := by
  refine ⟨fun rows => ?_, fun rows h => collapseBuckets_perm rows h,
    fun rows h => collapse_small_perm rows (by omega)⟩
  by_cases h : 8 < rows.length
  · rw [totalV_perm (collapseBuckets_perm rows h), totalV_append]
    have hsingle : totalV [("Other", totalV ((pctSorted rows).drop (cutoffIndex rows)))] =
        totalV ((pctSorted rows).drop (cutoffIndex rows)) := by
      simp [totalV]
    rw [hsingle, ← totalV_append, List.take_append_drop]
    exact totalV_perm (sortDescBy_perm _ rows)
  · exact totalV_perm (collapse_small_perm rows h)

/-- Witness for C3 at the 9-category scenario. -/
theorem c3_collapse_conservation_witness :
    totalV (collapseBuckets ex9) = totalV ex9 ∧
    8 < ex9.length ∧
    (collapseBuckets ex9).Perm
      ((pctSorted ex9).take (cutoffIndex ex9) ++
        [("Other", totalV ((pctSorted ex9).drop (cutoffIndex ex9)))]) :=
  ⟨c3_collapse_conservation.1 ex9, by decide,
    c3_collapse_conservation.2.1 ex9 (by decide)⟩

/-! ### File records and the duplicate classifier
(`df.duplicated(subset=['hash'], keep='first')`, `app.py` lines 300 and 339) -/

structure FileRecord where
  file_name : String
  file_path : String
  file_type : String
  size_mb : ℚ
  hash : String
deriving DecidableEq

/-- The duplicate classification paired with the rows: walking the records
in their given order, a record is flagged duplicate exactly when its hash
was already seen; the flag ignores every other field. -/
def markDups (seen : List String) : List FileRecord → List (FileRecord × Bool)
  | [] => []
  | r :: rs => (r, decide (r.hash ∈ seen)) :: markDups (r.hash :: seen) rs

theorem markDups_fst (seen : List String) (l : List FileRecord) :
    (markDups seen l).map (·.1) = l := by
  induction l generalizing seen with
  | nil => rfl
  | cons r rs ih => simp [markDups, ih]

theorem markDups_append (seen : List String) (a b : List FileRecord) :
    markDups seen (a ++ b) =
      markDups seen a ++ markDups ((a.map (·.hash)).reverse ++ seen) b := by
  induction a generalizing seen with
  | nil => simp [markDups]
  | cons r rs ih =>
    simp [markDups, ih, List.reverse_cons, List.append_assoc]

theorem markDups_flags_hash_congr (seen : List String) :
    ∀ (l l' : List FileRecord), l.map (·.hash) = l'.map (·.hash) →
      (markDups seen l).map (·.2) = (markDups seen l').map (·.2) := by
  intro l
  induction l generalizing seen with
  | nil =>
    intro l' h
    cases l' with
    | nil => rfl
    | cons a t => simp at h
  | cons r rs ih =>
    intro l' h
    cases l' with
    | nil => simp at h
    | cons r' rs' =>
      simp only [List.map_cons, List.cons.injEq] at h
      simp only [markDups, List.map_cons, h.1]
      exact congrArg _ (h.1 ▸ ih (r.hash :: seen) rs' h.2)

/-- C5: within each hash group the first record in input order is the
original and every later record with that hash is a duplicate, whatever its
other fields: the classifier preserves the rows, flags the record after a
prefix `l₁` as duplicate exactly when its hash occurs in `l₁`, and its flag
sequence depends only on the hash sequence — hence it is the same whichever
grouping key (File Type or Extension) the caller later uses. -/
theorem c5_duplicate_classification :
    (∀ l : List FileRecord, (markDups [] l).map (·.1) = l) ∧
    (∀ (l₁ l₂ : List FileRecord) (r : FileRecord),
      markDups [] (l₁ ++ r :: l₂) =
        markDups [] l₁ ++
          (r, decide (r.hash ∈ l₁.map (·.hash))) ::
            markDups (((l₁ ++ [r]).map (·.hash)).reverse) l₂) ∧
    (∀ l l' : List FileRecord, l.map (·.hash) = l'.map (·.hash) →
      (markDups [] l).map (·.2) = (markDups [] l').map (·.2)) := by
  refine ⟨markDups_fst [], fun l₁ l₂ r => ?_, markDups_flags_hash_congr []⟩
  rw [markDups_append]
  simp [markDups, List.mem_reverse]

/-- Three records, the first two sharing a hash; and the same hash sequence
with every other field changed. -/
def exDupA : List FileRecord :=
  [⟨"x.txt", "/x", "text", 10, "a"⟩, ⟨"y.bin", "/y", "binary", 99, "a"⟩,
   ⟨"z.txt", "/z", "text", 5, "b"⟩]

/-- Same hash sequence as `exDupA`, all other fields different. -/
def exDupB : List FileRecord :=
  [⟨"p.csv", "/p", "data", 1, "a"⟩, ⟨"q.csv", "/q", "data", 2, "a"⟩,
   ⟨"r.csv", "/r", "data", 3, "b"⟩]

/-- Witness for C5 on a concrete record list. -/
theorem c5_duplicate_classification_witness :
    (markDups [] exDupA).map (·.1) = exDupA ∧
    exDupA.map (·.hash) = exDupB.map (·.hash) ∧
    (markDups [] exDupA).map (·.2) = (markDups [] exDupB).map (·.2) ∧
    (markDups [] exDupA).map (·.2) = [false, true, false] :=
  ⟨c5_duplicate_classification.1 exDupA, by decide,
    c5_duplicate_classification.2.2 exDupA exDupB (by decide), by decide⟩

/-! ### Partition sums: summing a quantity per distinct key recovers the
whole-list sum. -/

theorem sum_map_add2 {M : Type*} [AddCommMonoid M] (g h : κ → M) (ks : List κ) :
    (ks.map (fun k => g k + h k)).sum = (ks.map g).sum + (ks.map h).sum := by
  induction ks with
  | nil => simp
  | cons k t ih => simp [ih, add_add_add_comm]

theorem sum_single_key {M : Type*} [AddCommMonoid M] [DecidableEq κ] (v : M) (c : κ) :
    ∀ ks : List κ, ks.Nodup → c ∈ ks →
      (ks.map (fun k => if c = k then v else 0)).sum = v := by
  intro ks
  induction ks with
  | nil => simp
  | cons k t ih =>
    intro hnd hmem
    rcases List.nodup_cons.mp hnd with ⟨hk, hnd'⟩
    by_cases hc : c = k
    · subst hc
      have ht : t.map (fun k' => if c = k' then v else 0) = t.map (fun _ => 0) := by
        apply List.map_congr_left
        intro k' hk'
        rw [if_neg]
        intro he
        subst he
        exact hk hk'
      simp [ht]
    · have hct : c ∈ t := by
        rcases List.mem_cons.mp hmem with h | h
        · exact absurd h hc
        · exact h
      simp [hc, ih hnd' hct]

theorem sum_filter_partition {M : Type*} [AddCommMonoid M] [DecidableEq κ]
    (key : α → κ) (f : α → M) :
    ∀ (l : List α) (ks : List κ), ks.Nodup → (∀ a ∈ l, key a ∈ ks) →
      (ks.map (fun k => ((l.filter (fun a => decide (key a = k))).map f).sum)).sum
        = (l.map f).sum := by
  intro l
  induction l with
  | nil => intro ks _ _; simp
  | cons a t ih =>
    intro ks hnd hcov
    have hsplit : ∀ k : κ,
        (((a :: t).filter (fun x => decide (key x = k))).map f).sum
          = (if key a = k then f a else 0)
            + ((t.filter (fun x => decide (key x = k))).map f).sum := by
      intro k
      by_cases h : key a = k
      · simp [List.filter_cons, h]
      · simp [List.filter_cons, h]
    rw [List.map_congr_left (fun k _ => hsplit k), sum_map_add2,
      sum_single_key (f a) (key a) ks hnd (hcov a (List.mem_cons_self a t)),
      ih ks hnd (fun x hx => hcov x (List.mem_cons_of_mem a hx))]
    simp

theorem sum_ones (l : List α) : (l.map (fun _ => (1 : ℕ))).sum = l.length := by
  induction l with
  | nil => rfl
  | cons a t ih => simp [ih, Nat.add_comm]

theorem sum_filter_length [DecidableEq κ] (key : α → κ)
    (l : List α) (ks : List κ) (hnd : ks.Nodup) (hcov : ∀ a ∈ l, key a ∈ ks) :
    (ks.map (fun k => (l.filter (fun a => decide (key a = k))).length)).sum
      = l.length := by
  have h := sum_filter_partition key (fun _ => (1 : ℕ)) l ks hnd hcov
  simpa [sum_ones] using h

/-! ### Grouped aggregator (`prepare_data_for_analysis`, `app.py` 282-363) -/

structure GroupRow (κ : Type*) where
  key : κ
  totalFiles : ℕ
  avgSize : ℚ
  totalSize : ℚ
  dupFiles : ℕ
  origFiles : ℤ
deriving DecidableEq

/-- Normalization applied before grouping:
`df['file_type'] = df['file_type'].str.title()`. -/
def normalizeRecords (l : List FileRecord) : List FileRecord :=
  l.map (fun r => { r with file_type := strTitle r.file_type })

/-- One summary row for grouping key `k`: total count, mean and total size
over the records with that key, the duplicate count among them (the merge
of the duplicate-subset `groupby` with missing keys filled with 0), and
`Original Files = Total Files - Duplicate Files`. -/
def buildRow [DecidableEq κ] (key : FileRecord → κ) (l : List FileRecord)
    (k : κ) : GroupRow κ :=
  let grp := l.filter (fun r => decide (key r = k))
  let dup := (markDups [] l).filter (fun p => decide (key p.1 = k) && p.2)
  { key := k
    totalFiles := grp.length
    avgSize := (grp.map (·.size_mb)).sum / (grp.length : ℚ)
    totalSize := (grp.map (·.size_mb)).sum
    dupFiles := dup.length
    origFiles := (grp.length : ℤ) - (dup.length : ℤ) }

/-- The grouped summary: group by the key (`groupby` sorts the distinct
keys ascending), aggregate, merge duplicate counts, derive original
counts, then `sort_values('Total Files', ascending=False)` (modelled as a
stable descending sort). -/
def groupSummary [LinearOrder κ] [DecidableEq κ] (key : FileRecord → κ)
    (l : List FileRecord) : List (GroupRow κ) :=
  sortDescBy (fun g => g.totalFiles)
    ((sortKeys (l.map key).dedup).map (buildRow key l))

/-- The detailed summary of the "File Type" view.  Keys are character
lists compared lexicographically by code point, exactly as the Python
strings are compared when the grouping sorts its keys. -/
def summaryType (l : List FileRecord) : List (GroupRow (List Char)) :=
  groupSummary (fun r => r.file_type.data) (normalizeRecords l)

/-- The grouping key of the "Extension" view: the derived extension paired
with the (title-cased) file type, compared lexicographically. -/
def extTypeKey (r : FileRecord) : Lex (List Char × List Char) :=
  toLex ((derive_extension r.file_name).data, r.file_type.data)

/-- The detailed summary of the "Extension" view. -/
def summaryExt (l : List FileRecord) : List (GroupRow (Lex (List Char × List Char))) :=
  groupSummary extTypeKey (normalizeRecords l)

theorem normalizeRecords_length (l : List FileRecord) :
    (normalizeRecords l).length = l.length :=
  List.length_map l _

theorem normalizeRecords_sizes (l : List FileRecord) :
    (normalizeRecords l).map (·.size_mb) = l.map (·.size_mb) := by
  simp [normalizeRecords]

theorem keyList_nodup [LinearOrder κ] [DecidableEq κ] (key : FileRecord → κ) (l : List FileRecord) :
    (sortKeys (l.map key).dedup).Nodup :=
  (sortKeys_perm (l.map key).dedup).nodup_iff.mpr (List.nodup_dedup _)

theorem keyList_cover [LinearOrder κ] [DecidableEq κ] (key : FileRecord → κ) (l : List FileRecord)
    (r : FileRecord) (hr : r ∈ l) : key r ∈ sortKeys (l.map key).dedup := by
  rw [(sortKeys_perm (l.map key).dedup).mem_iff, List.mem_dedup]
  exact List.mem_map_of_mem key hr

theorem filter_markDups_length [DecidableEq κ] (key : FileRecord → κ)
    (l : List FileRecord) (k : κ) :
    ((markDups [] l).filter (fun p => decide (key p.1 = k))).length
      = (l.filter (fun r => decide (key r = k))).length := by
  conv_rhs => rw [← markDups_fst [] l]
  rw [List.filter_map, List.length_map]
  exact congrArg List.length (List.filter_congr (fun p _ => rfl))

theorem buildRow_dup_le [DecidableEq κ] (key : FileRecord → κ)
    (l : List FileRecord) (k : κ) :
    (buildRow key l k).dupFiles ≤ (buildRow key l k).totalFiles := by
  show ((markDups [] l).filter (fun p => decide (key p.1 = k) && p.2)).length
    ≤ (l.filter (fun r => decide (key r = k))).length
  rw [← filter_markDups_length key l k]
  have hsub : ((markDups [] l).filter (fun p => decide (key p.1 = k) && p.2))
      = ((markDups [] l).filter (fun p => decide (key p.1 = k))).filter (fun p => p.2) := by
    rw [List.filter_filter]
    exact List.filter_congr (fun p _ => by cases hp : p.2 <;> simp [hp, Bool.and_comm])
  rw [hsub]
  exact List.length_filter_le _ _

/-- Conservation and per-row bounds of the grouped summary, for any
grouping key. -/
theorem groupSummary_conservation [LinearOrder κ] [DecidableEq κ]
    (key : FileRecord → κ) (l : List FileRecord) :
    ((groupSummary key l).map (·.totalFiles)).sum = l.length ∧
    ((groupSummary key l).map (·.totalSize)).sum = (l.map (·.size_mb)).sum ∧
    (∀ g ∈ groupSummary key l,
      g.dupFiles ≤ g.totalFiles ∧
      g.origFiles = (g.totalFiles : ℤ) - (g.dupFiles : ℤ) ∧
      0 ≤ g.origFiles) := by
  have hperm : (groupSummary key l).Perm
      ((sortKeys (l.map key).dedup).map (buildRow key l)) :=
    sortDescBy_perm _ _
  refine ⟨?_, ?_, ?_⟩
  · rw [(hperm.map (·.totalFiles)).sum_eq, List.map_map]
    have hfun : ((fun g : GroupRow κ => g.totalFiles) ∘ buildRow key l)
        = fun k => (l.filter (fun r => decide (key r = k))).length := rfl
    rw [hfun]
    exact sum_filter_length key l _ (keyList_nodup key l)
      (fun r hr => keyList_cover key l r hr)
  · rw [(hperm.map (·.totalSize)).sum_eq, List.map_map]
    have hfun : ((fun g : GroupRow κ => g.totalSize) ∘ buildRow key l)
        = fun k => ((l.filter (fun r => decide (key r = k))).map (·.size_mb)).sum := rfl
    rw [hfun]
    exact sum_filter_partition key (·.size_mb) l _ (keyList_nodup key l)
      (fun r hr => keyList_cover key l r hr)
  · intro g hg
    obtain ⟨k, -, rfl⟩ := List.mem_map.mp (hperm.mem_iff.mp hg)
    have hle := buildRow_dup_le key l k
    refine ⟨hle, rfl, ?_⟩
    have horig : (buildRow key l k).origFiles
        = ((buildRow key l k).totalFiles : ℤ) - ((buildRow key l k).dupFiles : ℤ) := rfl
    rw [horig]
    omega

/-- C6: for every input record sequence and both grouping-key choices, the
grouped summary's Total Files sum over groups equals the record count, its
Total Size sum equals the input size sum, and every group satisfies
0 ≤ Duplicate Files ≤ Total Files with
Original Files = Total Files - Duplicate Files ≥ 0. -/
theorem c6_grouped_invariants (l : List FileRecord) :
    (((summaryType l).map (·.totalFiles)).sum = l.length ∧
     ((summaryType l).map (·.totalSize)).sum = (l.map (·.size_mb)).sum ∧
     (∀ g ∈ summaryType l, g.dupFiles ≤ g.totalFiles ∧
       g.origFiles = (g.totalFiles : ℤ) - (g.dupFiles : ℤ) ∧ 0 ≤ g.origFiles)) ∧
    (((summaryExt l).map (·.totalFiles)).sum = l.length ∧
     ((summaryExt l).map (·.totalSize)).sum = (l.map (·.size_mb)).sum ∧
     (∀ g ∈ summaryExt l, g.dupFiles ≤ g.totalFiles ∧
       g.origFiles = (g.totalFiles : ℤ) - (g.dupFiles : ℤ) ∧ 0 ≤ g.origFiles)) := by
  have h1 := groupSummary_conservation (fun r => r.file_type.data) (normalizeRecords l)
  have h2 := groupSummary_conservation extTypeKey (normalizeRecords l)
  rw [normalizeRecords_length, normalizeRecords_sizes] at h1 h2
  exact ⟨h1, h2⟩

/-- Witness for C6 on a concrete record list. -/
theorem c6_grouped_invariants_witness :
    ((summaryType exDupA).map (·.totalFiles)).sum = exDupA.length ∧
    ((summaryType exDupA).map (·.totalSize)).sum = (exDupA.map (·.size_mb)).sum ∧
    (⟨"Binary".data, 1, 99, 99, 1, 0⟩ : GroupRow (List Char)) ∈ summaryType exDupA ∧
    ((⟨"Binary".data, 1, 99, 99, 1, 0⟩ : GroupRow (List Char)).dupFiles
        ≤ (⟨"Binary".data, 1, 99, 99, 1, 0⟩ : GroupRow (List Char)).totalFiles ∧
      (⟨"Binary".data, 1, 99, 99, 1, 0⟩ : GroupRow (List Char)).origFiles
        = ((⟨"Binary".data, 1, 99, 99, 1, 0⟩ : GroupRow (List Char)).totalFiles : ℤ)
          - ((⟨"Binary".data, 1, 99, 99, 1, 0⟩ : GroupRow (List Char)).dupFiles : ℤ) ∧
      0 ≤ (⟨"Binary".data, 1, 99, 99, 1, 0⟩ : GroupRow (List Char)).origFiles) :=
  ⟨(c6_grouped_invariants exDupA).1.1, (c6_grouped_invariants exDupA).1.2.1,
    by decide, (c6_grouped_invariants exDupA).1.2.2 _ (by decide)⟩

/-! ### Order of the summary rows -/

theorem insDescBy_sorted [LinearOrder β] (f : α → β) (x : α) :
    ∀ s : List α, s.Pairwise (fun a b => f b ≤ f a) →
      (insDescBy f x s).Pairwise (fun a b => f b ≤ f a) := by
  intro s
  induction s with
  | nil => intro _; simp [insDescBy]
  | cons y ys ih =>
    intro hp
    rcases List.pairwise_cons.mp hp with ⟨hy, hys⟩
    by_cases hle : f y ≤ f x
    · rw [insDescBy, if_pos hle]
      refine List.Pairwise.cons ?_ hp
      intro z hz
      rcases List.mem_cons.mp hz with rfl | hz'
      · exact hle
      · exact le_trans (hy z hz') hle
    · rw [insDescBy, if_neg hle]
      refine List.Pairwise.cons ?_ (ih hys)
      intro z hz
      rcases List.mem_cons.mp ((insDescBy_perm f x ys).mem_iff.mp hz) with rfl | hz'
      · exact le_of_lt (not_le.mp hle)
      · exact hy z hz'

theorem sortDescBy_sorted [LinearOrder β] (f : α → β) :
    ∀ l : List α, (sortDescBy f l).Pairwise (fun a b => f b ≤ f a) := by
  intro l
  induction l with
  | nil => simp [sortDescBy]
  | cons x t ih => exact insDescBy_sorted f x (sortDescBy f t) ih

/-- The grouped summary is sorted descending by Total Files.  No theorem
asserts a tie order for arbitrary inputs: the program's final sort is an
unstable quicksort, which promises none. -/
theorem groupSummary_sorted [LinearOrder κ] [DecidableEq κ]
    (key : FileRecord → κ) (l : List FileRecord) :
    (groupSummary key l).Pairwise (fun a b => b.totalFiles ≤ a.totalFiles) :=
  sortDescBy_sorted _ _

/-- Two records with distinct types and distinct hashes: the group keys tie
on Total Files, and the input order of first appearance is "Zz", "Aa". -/
def exTie : List FileRecord :=
  [⟨"z1.txt", "/1", "Zz", 1, "h1"⟩, ⟨"z2.txt", "/2", "Aa", 1, "h2"⟩]

/-- C8 counterexample: with two tied one-record groups whose keys first
appear in the order "Zz", "Aa", the summary emits "Aa" before "Zz" — the
ascending key order produced by the key-sorted grouping, which any
comparison sort of a 2-row tie preserves — so tied rows do not follow the
input order of first appearance. -/
theorem c8_counterexample :
    (summaryType exTie).map (·.totalFiles) = [1, 1] ∧
    (summaryType exTie).map (·.key) = ["Aa".data, "Zz".data] ∧
    exTie.map (·.file_type) = ["Zz", "Aa"] ∧
    (["Aa".data, "Zz".data] : List (List Char)) ≠ ["Zz".data, "Aa".data] := by decide

/-- C8 amended: for every input and both grouping-key choices, the summary
rows are sorted descending by Total Files; the program gives no guarantee
on the relative order of rows with equal Total Files (its final sort is an
unstable quicksort), and in particular tied rows do not follow the input
order of first appearance. -/
theorem c8_summary_order (l : List FileRecord) :
    (summaryType l).Pairwise (fun a b => b.totalFiles ≤ a.totalFiles) ∧
    (summaryExt l).Pairwise (fun a b => b.totalFiles ≤ a.totalFiles) :=
  ⟨groupSummary_sorted _ _, groupSummary_sorted _ _⟩


/-! ### Rollup aggregator (`app.py` lines 323-329): the pie summary -/

theorem sum_over_subkeys {M : Type*} [AddCommMonoid M] [DecidableEq κ]
    (key : α → κ) (f : α → M) (P : κ → Bool) (Q : α → Bool)
    (hPQ : ∀ a, Q a = P (key a)) (l : List α) (ks : List κ)
    (hnd : ks.Nodup) (hcov : ∀ a ∈ l, key a ∈ ks) :
    ((ks.filter P).map
        (fun k => ((l.filter (fun a => decide (key a = k))).map f).sum)).sum
      = ((l.filter Q).map f).sum := by
  have hnd' : (ks.filter P).Nodup := hnd.filter P
  have hcov' : ∀ a ∈ l.filter Q, key a ∈ ks.filter P := by
    intro a ha
    rcases List.mem_filter.mp ha with ⟨hal, haQ⟩
    refine List.mem_filter.mpr ⟨hcov a hal, ?_⟩
    rw [← hPQ a]
    exact haQ
  rw [← sum_filter_partition key f (l.filter Q) (ks.filter P) hnd' hcov']
  apply congrArg List.sum
  apply List.map_congr_left
  intro k hk
  have hPk : P k = true := (List.mem_filter.mp hk).2
  apply congrArg List.sum
  apply congrArg (List.map f)
  rw [List.filter_filter]
  apply List.filter_congr
  intro a _
  by_cases hak : key a = k
  · simp [hak, hPQ a, hPk]
  · simp [hak]

theorem sum_over_subkeys_length [DecidableEq κ]
    (key : α → κ) (P : κ → Bool) (Q : α → Bool)
    (hPQ : ∀ a, Q a = P (key a)) (l : List α) (ks : List κ)
    (hnd : ks.Nodup) (hcov : ∀ a ∈ l, key a ∈ ks) :
    ((ks.filter P).map
        (fun k => (l.filter (fun a => decide (key a = k))).length)).sum
      = (l.filter Q).length := by
  have h := sum_over_subkeys key (fun _ => (1 : ℕ)) P Q hPQ l ks hnd hcov
  simpa [sum_ones] using h

/-- A row of the pie-chart summary: the extension key and the four summed
columns of the extension-keyed aggregation — there is no average column. -/
structure PieRow where
  ext : List Char
  totalFiles : ℕ
  dupFiles : ℕ
  origFiles : ℤ
  totalSize : ℚ
deriving DecidableEq

/-- Whether a composite summary row belongs to extension `e`. -/
def extMatch (e : List Char) (g : GroupRow (Lex (List Char × List Char))) : Bool :=
  decide ((ofLex g.key).1 = e)

/-- Whether a record's derived extension is `e`. -/
def recExtMatch (e : List Char) (r : FileRecord) : Bool :=
  decide ((derive_extension r.file_name).data = e)

/-- The pie-chart rollup: group the composite summary by Extension (keys
ascending) and re-sum Total Files, Duplicate Files, Original Files and
Total Size (MB). -/
def rollupExt (summary : List (GroupRow (Lex (List Char × List Char)))) :
    List PieRow :=
  (sortKeys ((summary.map (fun g => (ofLex g.key).1)).dedup)).map (fun e =>
    { ext := e
      totalFiles := ((summary.filter (extMatch e)).map (·.totalFiles)).sum
      dupFiles := ((summary.filter (extMatch e)).map (·.dupFiles)).sum
      origFiles := ((summary.filter (extMatch e)).map (·.origFiles)).sum
      totalSize := ((summary.filter (extMatch e)).map (·.totalSize)).sum })

/-- The pie summary of the "Extension" view. -/
def pieSummaryExt (l : List FileRecord) : List PieRow :=
  rollupExt (summaryExt l)

/-- The columns of the detailed Extension-view summary
(`app.py` lines 305, 316, 319). -/
def summaryExtColumns : List String :=
  ["Extension", "File Type", "Total Files", "Avg Size (MB)", "Total Size (MB)",
   "Duplicate Files", "Original Files"]

/-- The columns of the pie-chart rollup (`app.py` lines 324-329): the key
and the four summed columns only. -/
def pieSummaryColumns : List String :=
  ["Extension", "Total Files", "Duplicate Files", "Original Files",
   "Total Size (MB)"]

theorem buildRow_key [DecidableEq κ] (key : FileRecord → κ) (l : List FileRecord)
    (k : κ) : (buildRow key l k).key = k := rfl

theorem buildRow_totalFiles [DecidableEq κ] (key : FileRecord → κ)
    (l : List FileRecord) (k : κ) :
    (buildRow key l k).totalFiles
      = (l.filter (fun r => decide (key r = k))).length := rfl

theorem buildRow_totalSize [DecidableEq κ] (key : FileRecord → κ)
    (l : List FileRecord) (k : κ) :
    (buildRow key l k).totalSize
      = ((l.filter (fun r => decide (key r = k))).map (·.size_mb)).sum := rfl

theorem filter_map_sum {α' : Type*} {M : Type*} [AddCommMonoid M]
    (b : κ → α') (P : α' → Bool) (f : α' → M) :
    ∀ ks : List κ, (((ks.map b).filter P).map f).sum
      = ((ks.filter (fun k => P (b k))).map (fun k => f (b k))).sum := by
  intro ks
  induction ks with
  | nil => rfl
  | cons k t ih =>
    by_cases h : P (b k)
    · simp [List.filter_cons, h, ih]
    · simp [List.filter_cons, h, ih]

theorem rollup_totalFiles_direct (l : List FileRecord) (e : List Char) :
    (((summaryExt l).filter (extMatch e)).map (·.totalFiles)).sum
      = ((normalizeRecords l).filter (recExtMatch e)).length := by
  unfold summaryExt groupSummary
  refine Eq.trans ((((sortDescBy_perm _ _).filter _).map
    (fun x : GroupRow (Lex (List Char × List Char)) => x.totalFiles)).sum_eq) ?_
  refine Eq.trans (filter_map_sum (buildRow extTypeKey (normalizeRecords l))
    (extMatch e) (fun x => x.totalFiles)
    (sortKeys ((normalizeRecords l).map extTypeKey).dedup)) ?_
  have hfil : (sortKeys ((normalizeRecords l).map extTypeKey).dedup).filter
      (fun k => extMatch e (buildRow extTypeKey (normalizeRecords l) k))
      = (sortKeys ((normalizeRecords l).map extTypeKey).dedup).filter
        (fun k => decide ((ofLex k).1 = e)) :=
    List.filter_congr (fun k _ => by rw [extMatch, buildRow_key])
  rw [hfil]
  have hmap : ((sortKeys ((normalizeRecords l).map extTypeKey).dedup).filter
        (fun k => decide ((ofLex k).1 = e))).map
      (fun k => (buildRow extTypeKey (normalizeRecords l) k).totalFiles)
      = ((sortKeys ((normalizeRecords l).map extTypeKey).dedup).filter
          (fun k => decide ((ofLex k).1 = e))).map
        (fun k => ((normalizeRecords l).filter
          (fun a => decide (extTypeKey a = k))).length) :=
    List.map_congr_left (fun k _ => buildRow_totalFiles extTypeKey (normalizeRecords l) k)
  rw [hmap]
  exact sum_over_subkeys_length extTypeKey (fun k => decide ((ofLex k).1 = e))
    (recExtMatch e) (fun a => decide_eq_decide.mpr Iff.rfl)
    (normalizeRecords l) _ (keyList_nodup extTypeKey (normalizeRecords l))
    (fun r hr => keyList_cover extTypeKey (normalizeRecords l) r hr)

theorem rollup_totalSize_direct (l : List FileRecord) (e : List Char) :
    (((summaryExt l).filter (extMatch e)).map (·.totalSize)).sum
      = (((normalizeRecords l).filter (recExtMatch e)).map (·.size_mb)).sum := by
  unfold summaryExt groupSummary
  refine Eq.trans ((((sortDescBy_perm _ _).filter _).map
    (fun x : GroupRow (Lex (List Char × List Char)) => x.totalSize)).sum_eq) ?_
  refine Eq.trans (filter_map_sum (buildRow extTypeKey (normalizeRecords l))
    (extMatch e) (fun x => x.totalSize)
    (sortKeys ((normalizeRecords l).map extTypeKey).dedup)) ?_
  have hfil : (sortKeys ((normalizeRecords l).map extTypeKey).dedup).filter
      (fun k => extMatch e (buildRow extTypeKey (normalizeRecords l) k))
      = (sortKeys ((normalizeRecords l).map extTypeKey).dedup).filter
        (fun k => decide ((ofLex k).1 = e)) :=
    List.filter_congr (fun k _ => by rw [extMatch, buildRow_key])
  rw [hfil]
  have hmap : ((sortKeys ((normalizeRecords l).map extTypeKey).dedup).filter
        (fun k => decide ((ofLex k).1 = e))).map
      (fun k => (buildRow extTypeKey (normalizeRecords l) k).totalSize)
      = ((sortKeys ((normalizeRecords l).map extTypeKey).dedup).filter
          (fun k => decide ((ofLex k).1 = e))).map
        (fun k => (((normalizeRecords l).filter
          (fun a => decide (extTypeKey a = k))).map (·.size_mb)).sum) :=
    List.map_congr_left (fun k _ => buildRow_totalSize extTypeKey (normalizeRecords l) k)
  rw [hmap]
  exact sum_over_subkeys extTypeKey (·.size_mb) (fun k => decide ((ofLex k).1 = e))
    (recExtMatch e) (fun a => decide_eq_decide.mpr Iff.rfl)
    (normalizeRecords l) _ (keyList_nodup extTypeKey (normalizeRecords l))
    (fun r hr => keyList_cover extTypeKey (normalizeRecords l) r hr)

/-- C7 amended: rolling up the composite (Extension, File Type) summary to
the Extension-only pie summary re-sums total, duplicate, original and size
counts across file types — each rolled-up count and size equals the direct
aggregation of the normalized records by extension, so the quotient
total_size_mb / total_files is the weighted mean of the record sizes — but
no average is recomputed or carried: the rollup's columns have no
"Avg Size (MB)". -/
theorem c7_rollup :
    (∀ l : List FileRecord, ∀ p ∈ pieSummaryExt l,
      p.totalFiles = (((summaryExt l).filter (extMatch p.ext)).map (·.totalFiles)).sum ∧
      p.dupFiles = (((summaryExt l).filter (extMatch p.ext)).map (·.dupFiles)).sum ∧
      p.origFiles = (((summaryExt l).filter (extMatch p.ext)).map (·.origFiles)).sum ∧
      p.totalSize = (((summaryExt l).filter (extMatch p.ext)).map (·.totalSize)).sum ∧
      p.totalFiles = ((normalizeRecords l).filter (recExtMatch p.ext)).length ∧
      p.totalSize = (((normalizeRecords l).filter (recExtMatch p.ext)).map
        (·.size_mb)).sum) ∧
    "Avg Size (MB)" ∉ pieSummaryColumns := by
  refine ⟨fun l p hp => ?_, by decide⟩
  obtain ⟨e, -, rfl⟩ := List.mem_map.mp hp
  exact ⟨rfl, rfl, rfl, rfl, rollup_totalFiles_direct l e, rollup_totalSize_direct l e⟩

/-- C7 counterexample: the detailed summary carries an "Avg Size (MB)"
column, the rollup's aggregation does not — no average is recomputed. -/
theorem c7_counterexample :
    "Avg Size (MB)" ∈ summaryExtColumns ∧ "Avg Size (MB)" ∉ pieSummaryColumns := by
  decide

/-- Two records with different file types sharing the extension "txt". -/
def exRoll : List FileRecord :=
  [⟨"a.txt", "/1", "text", 10, "h1"⟩, ⟨"b.txt", "/2", "csv", 20, "h2"⟩]

/-- Witness for C7 on a concrete inventory whose two file types share one
extension. -/
theorem c7_rollup_witness :
    (⟨"txt".data, 2, 0, 2, 30⟩ : PieRow) ∈ pieSummaryExt exRoll ∧
    (⟨"txt".data, 2, 0, 2, 30⟩ : PieRow).totalFiles
      = ((normalizeRecords exRoll).filter
          (recExtMatch (⟨"txt".data, 2, 0, 2, 30⟩ : PieRow).ext)).length :=
  ⟨by decide,
    (c7_rollup.1 exRoll ⟨"txt".data, 2, 0, 2, 30⟩ (by decide)).2.2.2.2.1⟩

/-! ### SEG-Y batch analyzer (`utils/segy_analyzer.py`)

The external geometry-extraction collaborator (the binary-format library
and the file system) is modelled as an oracle returning the typed outcome
for each file; the analyzer's loop, accumulators and coverage tally are
translated from the source. -/

/-- The geometry a successful per-file extraction returns. -/
structure SegyGeometry where
  total_traces : ℕ
  sample_interval_us : ℚ
  inline_min : ℤ
  inline_max : ℤ
  crossline_min : ℤ
  crossline_max : ℤ
deriving DecidableEq

/-- The typed outcome of the collaborator for one file: success, missing
file, or a parse failure with a message. -/
inductive SegyOutcome where
  | ok (g : SegyGeometry)
  | missing
  | err (msg : String)
deriving DecidableEq

/-- One row of the analysis result table (lines 60-71). -/
structure SegyResult where
  file_path : String
  file_name : String
  size_mb : ℚ
  total_traces : ℕ
  sample_interval_us : ℚ
  inline_min : ℤ
  inline_max : ℤ
  crossline_min : ℤ
  crossline_max : ℤ
  survey_area_km2 : ℚ
deriving DecidableEq

/-- The result row for an accessible file, with
`survey_area_km2 = |inline_max - inline_min| * |crossline_max - crossline_min| / 1_000_000`
(lines 55-58). -/
def mkSegyResult (r : FileRecord) (g : SegyGeometry) : SegyResult :=
  { file_path := r.file_path
    file_name := r.file_name
    size_mb := r.size_mb
    total_traces := g.total_traces
    sample_interval_us := g.sample_interval_us
    inline_min := g.inline_min
    inline_max := g.inline_max
    crossline_min := g.crossline_min
    crossline_max := g.crossline_max
    survey_area_km2 := (((g.inline_max - g.inline_min).natAbs : ℚ)
      * ((g.crossline_max - g.crossline_min).natAbs : ℚ)) / 1000000 }

/-- The SEG-Y selection test:
`file_name.str.lower().str.endswith(('.sgy', '.segy'))` (lines 15-17). -/
def isSegyName (name : String) : Bool :=
  ".sgy".data.isSuffixOf (name.data.map Char.toLower)
    || ".segy".data.isSuffixOf (name.data.map Char.toLower)

/-- The selected SEG-Y rows of the inventory. -/
def segySelect (l : List FileRecord) : List FileRecord :=
  l.filter (fun r => isSegyName r.file_name)

/-- The three accumulators of `analyze_segy_files`. -/
structure AnalyzeState where
  results : List SegyResult
  missing : List String
  errors : List (String × String)
deriving DecidableEq

/-- The per-file loop of `analyze_segy_files` (lines 27-79): each selected
row goes to the collaborator; a missing file is recorded in the missing
list, a parse failure in the error list, a success as a result row, and
processing always continues with the remaining rows. -/
def analyzeSegyFiles (oracle : FileRecord → SegyOutcome) :
    List FileRecord → AnalyzeState
  | [] => ⟨[], [], []⟩
  | r :: rs =>
    let rest := analyzeSegyFiles oracle rs
    match oracle r with
    | .ok g => ⟨mkSegyResult r g :: rest.results, rest.missing, rest.errors⟩
    | .missing => ⟨rest.results, r.file_path :: rest.missing, rest.errors⟩
    | .err m => ⟨rest.results, rest.missing, (r.file_path, m) :: rest.errors⟩

/-- The coverage report of `get_survey_coverage` (lines 83-100). -/
structure SurveyCoverage where
  total_segy_files : ℕ
  accessible_files : ℕ
  missing_files : ℕ
  error_files : ℕ
  total_area_km2 : ℚ
  size_gb : ℚ
deriving DecidableEq

/-- `get_survey_coverage`: run the batch analysis on the selected rows and
tally outcome counts, total area and total size. -/
def getSurveyCoverage (oracle : FileRecord → SegyOutcome)
    (inventory : List FileRecord) : SurveyCoverage :=
  { total_segy_files := (segySelect inventory).length
    accessible_files := (analyzeSegyFiles oracle (segySelect inventory)).results.length
    missing_files := (analyzeSegyFiles oracle (segySelect inventory)).missing.length
    error_files := (analyzeSegyFiles oracle (segySelect inventory)).errors.length
    total_area_km2 := ((analyzeSegyFiles oracle (segySelect inventory)).results.map
      (·.survey_area_km2)).sum
    size_gb := ((segySelect inventory).map (·.size_mb)).sum / 1024 }

theorem analyze_mem (oracle : FileRecord → SegyOutcome) :
    ∀ (l : List FileRecord) (r : FileRecord), r ∈ l →
      (oracle r = .missing →
        r.file_path ∈ (analyzeSegyFiles oracle l).missing) ∧
      (∀ m, oracle r = .err m →
        (r.file_path, m) ∈ (analyzeSegyFiles oracle l).errors) ∧
      (∀ g, oracle r = .ok g →
        mkSegyResult r g ∈ (analyzeSegyFiles oracle l).results) := by
  intro l
  induction l with
  | nil => intro r hr; exact absurd hr (List.not_mem_nil r)
  | cons a t ih =>
    intro r hr
    rcases List.mem_cons.mp hr with rfl | hr'
    · refine ⟨fun h => ?_, fun m h => ?_, fun g h => ?_⟩ <;>
        simp [analyzeSegyFiles, h]
    · obtain ⟨h1, h2, h3⟩ := ih r hr'
      refine ⟨fun h => ?_, fun m h => ?_, fun g h => ?_⟩
      · cases ho : oracle a <;> simp [analyzeSegyFiles, ho, h1 h]
      · cases ho : oracle a <;> simp [analyzeSegyFiles, ho, h2 m h]
      · cases ho : oracle a <;> simp [analyzeSegyFiles, ho, h3 g h]

theorem analyze_append (oracle : FileRecord → SegyOutcome) (l₁ l₂ : List FileRecord) :
    analyzeSegyFiles oracle (l₁ ++ l₂) =
      ⟨(analyzeSegyFiles oracle l₁).results ++ (analyzeSegyFiles oracle l₂).results,
       (analyzeSegyFiles oracle l₁).missing ++ (analyzeSegyFiles oracle l₂).missing,
       (analyzeSegyFiles oracle l₁).errors ++ (analyzeSegyFiles oracle l₂).errors⟩ := by
  induction l₁ with
  | nil => simp [analyzeSegyFiles]
  | cons a t ih => cases ho : oracle a <;> simp [analyzeSegyFiles, ho, ih]

theorem analyze_counts (oracle : FileRecord → SegyOutcome) :
    ∀ l : List FileRecord,
      (analyzeSegyFiles oracle l).results.length
        + (analyzeSegyFiles oracle l).missing.length
        + (analyzeSegyFiles oracle l).errors.length = l.length := by
  intro l
  induction l with
  | nil => rfl
  | cons a t ih => cases ho : oracle a <;> simp [analyzeSegyFiles, ho] <;> omega

/-- C9: every selected file's outcome is recorded — a missing file in the
missing list, a parse failure in the error list, a success as a result
row; the batch decomposes over list concatenation, so one file's failure
never aborts the processing of the remaining files; and the coverage
consumer tallies the per-call outcomes into the accessible, missing, and
errored buckets. -/
theorem c9_fault_isolation :
    (∀ (oracle : FileRecord → SegyOutcome) (l : List FileRecord)
        (r : FileRecord), r ∈ segySelect l →
      (oracle r = .missing →
        r.file_path ∈ (analyzeSegyFiles oracle (segySelect l)).missing) ∧
      (∀ m, oracle r = .err m →
        (r.file_path, m) ∈ (analyzeSegyFiles oracle (segySelect l)).errors) ∧
      (∀ g, oracle r = .ok g →
        mkSegyResult r g ∈ (analyzeSegyFiles oracle (segySelect l)).results)) ∧
    (∀ (oracle : FileRecord → SegyOutcome) (l₁ l₂ : List FileRecord),
      analyzeSegyFiles oracle (l₁ ++ l₂) =
        ⟨(analyzeSegyFiles oracle l₁).results ++ (analyzeSegyFiles oracle l₂).results,
         (analyzeSegyFiles oracle l₁).missing ++ (analyzeSegyFiles oracle l₂).missing,
         (analyzeSegyFiles oracle l₁).errors ++ (analyzeSegyFiles oracle l₂).errors⟩) ∧
    (∀ (oracle : FileRecord → SegyOutcome) (l : List FileRecord),
      (getSurveyCoverage oracle l).accessible_files
        = (analyzeSegyFiles oracle (segySelect l)).results.length ∧
      (getSurveyCoverage oracle l).missing_files
        = (analyzeSegyFiles oracle (segySelect l)).missing.length ∧
      (getSurveyCoverage oracle l).error_files
        = (analyzeSegyFiles oracle (segySelect l)).errors.length) :=
  ⟨fun oracle l r hr => analyze_mem oracle (segySelect l) r hr,
    analyze_append,
    fun _ _ => ⟨rfl, rfl, rfl⟩⟩

/-- An inventory with three SEG-Y files and one other file. -/
def exSegyInv : List FileRecord :=
  [⟨"a.sgy", "/a.sgy", "seismic", 100, "h1"⟩,
   ⟨"b.segy", "/b.segy", "seismic", 50, "h2"⟩,
   ⟨"c.sgy", "/c.sgy", "seismic", 10, "h3"⟩,
   ⟨"notes.txt", "/notes.txt", "text", 1, "h4"⟩]

/-- A concrete geometry for the accessible file. -/
def exGeom : SegyGeometry := ⟨1000, 2000, 100, 200, 300, 500⟩

/-- A concrete collaborator: one accessible file, one missing file, and a
parse failure for everything else. -/
def exOracle : FileRecord → SegyOutcome := fun r =>
  if r.file_name = "a.sgy" then .ok exGeom
  else if r.file_name = "b.segy" then .missing
  else .err "bad header"

/-- The missing file of the concrete scenario. -/
def exMissingRec : FileRecord := ⟨"b.segy", "/b.segy", "seismic", 50, "h2"⟩

/-- Witness for C9 at the concrete scenario: the missing file is recorded
and the remaining files are still processed. -/
theorem c9_fault_isolation_witness :
    exMissingRec ∈ segySelect exSegyInv ∧
    exOracle exMissingRec = SegyOutcome.missing ∧
    exMissingRec.file_path ∈ (analyzeSegyFiles exOracle (segySelect exSegyInv)).missing ∧
    (analyzeSegyFiles exOracle (segySelect exSegyInv)).errors = [("/c.sgy", "bad header")] :=
  ⟨by decide, by decide,
    (c9_fault_isolation.1 exOracle exSegyInv exMissingRec (by decide)).1 (by decide),
    by decide⟩

/-- C10: the coverage counts partition the selected files —
`accessible_files + missing_files + error_files = total_segy_files`, and
`total_segy_files` counts exactly the inventory rows whose lowercased file
name ends with ".sgy" or ".segy". -/
theorem c10_coverage_partition :
    ∀ (oracle : FileRecord → SegyOutcome) (l : List FileRecord),
      (getSurveyCoverage oracle l).accessible_files
          + (getSurveyCoverage oracle l).missing_files
          + (getSurveyCoverage oracle l).error_files
        = (getSurveyCoverage oracle l).total_segy_files ∧
      (getSurveyCoverage oracle l).total_segy_files
        = (l.filter (fun r =>
            ".sgy".data.isSuffixOf (r.file_name.data.map Char.toLower)
              || ".segy".data.isSuffixOf (r.file_name.data.map Char.toLower))).length :=
  fun oracle l => ⟨analyze_counts oracle (segySelect l), rfl⟩

end StreamlitDashboard
